import Mathlib

/-!
Verification of the playback engine of the `amuseing` repository.

The development shallow-embeds the parts of the program the claims are
about:

* `src/queue.rs` — the repeat-aware playback queue (`Queue<T>` with
  `next_item`, `jump`, `skip`, `rewind`, `remove`, `insert`, `current`).
  Machine integers (`usize`) are modelled as `Nat`; the `usize`
  subtraction underflow in `Queue::rewind` and the `expect` calls are
  modelled explicitly by `Option` (a `none` result stands for a panic).
* `src/playback.rs` — the `Player` facade (`run`, `seek_duration`,
  `rewind`, `send_message`) and `AtomicVolume` (`from_percent`,
  `from_percent_checked`).  `Duration` values are modelled as whole
  milliseconds (`Nat`), matching `AtomicMilliseconds`; the `f64`
  second-valued comparisons in `Player::rewind` are modelled over `ℚ`.
  The `f64` arithmetic of `AtomicVolume` is modelled over `ℚ` (for the
  clamped percentage, whose operations are exact) and `ℝ` (for the
  `powf`-computed multiplier), abstracting floating-point rounding.
* The control channel is modelled by the list of messages an operation
  sends, and the `Option<Sender>` field by a `hasSender` flag.
-/

namespace Amuseing

/-- `RepeatMode` from `src/queue.rs`. -/
inductive RepeatMode where
  | Off
  | Single
  | All
deriving DecidableEq, Repr

/-- `Queue<T>` from `src/queue.rs`: a backing vector, the current index,
the repeat mode, and the `has_advanced` flag. -/
structure Queue (T : Type) where
  items : List T
  index : Nat
  repeat_mode : RepeatMode
  has_advanced : Bool
deriving DecidableEq, Repr

/-- `Queue::new` from `src/queue.rs`. -/
def Queue.new (T : Type) (repeat_mode : RepeatMode) : Queue T :=
  { items := [], index := 0, repeat_mode := repeat_mode, has_advanced := false }

/-- `Queue::next_item` from `src/queue.rs` (the queue's `advance()`):
returns the produced item together with the updated queue. -/
def Queue.next_item {T : Type} (q : Queue T) : Option T × Queue T :=
  if q.items.isEmpty then (none, q)
  else
    let i1 := if q.repeat_mode ≠ RepeatMode.Single ∧ q.has_advanced = true ∧
        q.index < q.items.length then q.index + 1 else q.index
    let i2 := if q.repeat_mode ≠ RepeatMode.Off then i1 % q.items.length else i1
    (q.items[i2]?, { q with index := i2, has_advanced := true })

/-- `Queue::is_empty` from `src/queue.rs`. -/
def Queue.is_empty {T : Type} (q : Queue T) : Bool :=
  q.items.isEmpty

/-- `Queue::current` from `src/queue.rs`: `self.items.get(self.index)`. -/
def Queue.current {T : Type} (q : Queue T) : Option T :=
  q.items[q.index]?

/-- `OutOfBoundsError<T>` from `src/errors.rs`. -/
inductive OutOfBoundsError (T : Type) where
  | Low (value min : T)
  | High (value max : T)
  | Range (value min max : T)
deriving DecidableEq, Repr

/-- `Queue::jump` from `src/queue.rs`: fails when `new_index > len`,
otherwise sets the index and clears `has_advanced`. -/
def Queue.jump {T : Type} (q : Queue T) (new_index : Nat) :
    Except (OutOfBoundsError Nat) (Queue T) :=
  if q.items.length < new_index then
    Except.error (OutOfBoundsError.High new_index q.items.length)
  else
    Except.ok { q with has_advanced := false, index := new_index }

/-- `Queue::skip` from `src/queue.rs`.  `n` is bumped by one when
`has_advanced` is set; the target is `(index + n).clamp(0, len)` under
`Off` (which on `usize` is `min (index + n) len`) and
`(index + n) % len` otherwise.  The trailing `expect` on the internal
`jump` is modelled by `Option` (`none` = panic). -/
def Queue.skip {T : Type} (q : Queue T) (n : Nat) : Option (Queue T) :=
  let n1 := if q.has_advanced then n + 1 else n
  let new_index :=
    if q.items.isEmpty then 0
    else if q.repeat_mode = RepeatMode.Off then min (q.index + n1) q.items.length
    else (q.index + n1) % q.items.length
  (q.jump new_index).toOption

/-- `Queue::rewind` from `src/queue.rs`.  When `n > index` the source
computes `len - (n - index)` on `usize`: if `n - index > len` this
subtraction underflows (a panic in debug builds; in release builds it
wraps to a value `> len`, so the internal `jump`'s `expect` panics).  A
panic on either path is modelled as `none`. -/
def Queue.rewind {T : Type} (q : Queue T) (n : Nat) : Option (Queue T) :=
  if q.items.isEmpty then (q.jump 0).toOption
  else if n ≤ q.index then (q.jump (q.index - n)).toOption
  else if q.items.length < n - q.index then none
  else (q.jump (q.items.length - (n - q.index))).toOption

/-- `Queue::remove` from `src/queue.rs`: `Vec::remove(index)` (modelled
on in-bounds indices; the source panics out of bounds), then the queue
index is decremented when the removed position is strictly below it. -/
def Queue.remove {T : Type} (q : Queue T) (i : Nat) : Queue T :=
  { q with
    items := q.items.take i ++ q.items.drop (i + 1)
    index := if i < q.index then q.index - 1 else q.index }

/-- `Queue::insert` from `src/queue.rs`: `Vec::insert(index, item)`
(modelled on indices `≤ len`; the source panics above), then the queue
index is incremented when the inserted position is at or below it. -/
def Queue.insert {T : Type} (q : Queue T) (i : Nat) (item : T) : Queue T :=
  { q with
    items := q.items.take i ++ item :: q.items.drop i
    index := if i ≤ q.index then q.index + 1 else q.index }

/-- Iterate `next_item` `n` times, keeping only the final queue state. -/
def Queue.advanceN {T : Type} (q : Queue T) : Nat → Queue T
  | 0 => q
  | n + 1 => (Queue.next_item (Queue.advanceN q n)).2

/-- The result of the `(k+1)`-st call to `next_item`, starting from `q`. -/
def Queue.nthOutput {T : Type} (q : Queue T) (k : Nat) : Option T :=
  (Queue.next_item (Queue.advanceN q k)).1

/-! ### `src/playback.rs`: the `Player` facade and `AtomicVolume` -/

/-- `Song` from `src/playback.rs`, with the duration in whole
milliseconds (matching `AtomicMilliseconds`); the path is omitted as no
verified operation reads it. -/
structure Song where
  id : Nat
  title : String
  durationMillis : Nat
deriving DecidableEq, Repr

/-- `PlayerState` from `src/playback.rs`. -/
inductive PlayerState where
  | Paused
  | Playing
  | Finished
  | NotStarted
deriving DecidableEq, Repr

/-- `PlayerMessage` from `src/playback.rs` (the `Seek` payload in
milliseconds). -/
inductive PlayerMessage where
  | Stop
  | Pause
  | Resume
  | Seek (durationMillis : Nat)
  | Quit
deriving DecidableEq, Repr

/-- `PlayerStartError` from `src/errors.rs`. -/
inductive PlayerStartError where
  | Running
  | EmptyQueue
deriving DecidableEq, Repr

/-- `SeekError` from `src/errors.rs`. -/
inductive SeekError where
  | OutOfRange (e : OutOfBoundsError Nat)
  | NoCurrentSong
deriving DecidableEq, Repr

/-- `SeekError::out_of_range` from `src/errors.rs` (its `to` argument is
named `value` here, `to` being reserved in Lean). -/
def SeekError.out_of_range (value max : Nat) : SeekError :=
  SeekError.OutOfRange (OutOfBoundsError.High value max)

/-- `Player` from `src/playback.rs`: the fields the verified operations
read.  The `sender : Option<Sender<PlayerMessage>>` field is modelled by
the `hasSender` flag; `time_playing` (an `AtomicMilliseconds`) and
`rewind_threshold` (a `Duration`, 3 s in `Player::new`) as whole
milliseconds. -/
structure Player where
  queue : Queue Song
  state : PlayerState
  hasSender : Bool
  timePlayingMillis : Nat
  rewindThresholdMillis : Nat
deriving DecidableEq, Repr

/-- `Player::send_message`: returns whether the worker was reachable,
paired with the list of control messages actually sent. -/
def Player.send_message (p : Player) (message : PlayerMessage) :
    Bool × List PlayerMessage :=
  if p.hasSender then (true, [message]) else (false, [])

/-- `Player::current`: `self.queue.lock().unwrap().current().cloned()`. -/
def Player.current (p : Player) : Option Song :=
  p.queue.current

/-- `Player::run` from `src/playback.rs` (lines 446–461): the state and
queue checks and the resulting state/sender update; the spawned decoder
thread lies outside the modelled fragment. -/
def Player.run (p : Player) : Except PlayerStartError Player :=
  match p.state with
  | PlayerState.Playing => Except.error PlayerStartError.Running
  | PlayerState.Paused => Except.error PlayerStartError.Running
  | _ =>
    if p.queue.is_empty then Except.error PlayerStartError.EmptyQueue
    else Except.ok { p with state := PlayerState.Paused, hasSender := true }

/-- `Player::seek_duration` from `src/playback.rs` (lines 652–658):
the validation and the message it sends. -/
def Player.seek_duration (p : Player) (durationMillis : Nat) :
    Except SeekError Bool × List PlayerMessage :=
  match p.current with
  | none => (Except.error SeekError.NoCurrentSong, [])
  | some song =>
    if song.durationMillis < durationMillis then
      (Except.error (SeekError.out_of_range durationMillis song.durationMillis), [])
    else
      let sent := p.send_message (PlayerMessage.Seek durationMillis)
      (Except.ok sent.1, sent.2)

/-- `Player::rewind` from `src/playback.rs` (lines 666–676).  The `f64`
comparison `time_playing.as_secs_f64() > rewind_threshold.as_secs_f64()`
is modelled over `ℚ`; the `expect` on the seek branch and a panic inside
`Queue::rewind` are modelled as `none`. -/
def Player.rewind (p : Player) : Option (Player × List PlayerMessage) :=
  if (p.timePlayingMillis : ℚ) / 1000 > (p.rewindThresholdMillis : ℚ) / 1000 ∧
      (p.current).isSome = true then
    match p.seek_duration 0 with
    | (Except.ok _, msgs) => some (p, msgs)
    | (Except.error _, _) => none
  else
    match p.queue.rewind 1 with
    | some q2 => some ({ p with queue := q2 }, (p.send_message PlayerMessage.Stop).2)
    | none => none

/-- `AtomicVolume` from `src/playback.rs`: the stored percentage and its
derived sample multiplier.  `f64` values are modelled by `ℚ` for the
percentage (whose clamp/compare operations are exact) and by `ℝ` for the
`powf`-computed multiplier, abstracting floating-point rounding. -/
structure AtomicVolume where
  percent : ℚ
  multiplier : ℝ

/-- `AtomicVolume::from_percent` from `src/playback.rs` (lines 250–265):
clamp the percentage to `[0, 1]` (on `f64`, `clamp(0., 1.)` is
`max 0 (min p 1)`); at exactly 0 or 1 the multiplier is the percentage
itself, otherwise `10^(ar/20)` with `ar` interpolated linearly between
`MIN_AR = -60` dB and `MAX_AR = 0` dB. -/
noncomputable def AtomicVolume.from_percent (percent : ℚ) : AtomicVolume :=
  let p := max 0 (min percent 1)
  if p = 0 ∨ p = 1 then { percent := p, multiplier := (p : ℝ) }
  else
    { percent := p,
      multiplier := (10 : ℝ) ^ (((((-60 : ℚ) + ((0 : ℚ) - (-60 : ℚ)) * p) : ℚ) : ℝ) / 20) }

/-- `AtomicVolume::from_percent_checked` from `src/playback.rs` (lines
236–241): fails with a range error when the percentage lies outside
`[0, 1]` instead of clamping. -/
noncomputable def AtomicVolume.from_percent_checked (percent : ℚ) :
    Except (OutOfBoundsError ℚ) AtomicVolume :=
  if ¬ (0 ≤ percent ∧ percent ≤ 1) then
    Except.error (OutOfBoundsError.Range percent 0 1)
  else Except.ok (AtomicVolume.from_percent percent)

/-! ### Helper lemmas about `Queue.next_item` iteration -/

theorem advanceN_empty {T : Type} (q : Queue T) (h : q.items = []) (k : Nat) :
    Queue.advanceN q k = q := by
  induction k with
  | zero => rfl
  | succ n ih => simp [Queue.advanceN, ih, Queue.next_item, h]

theorem advanceN_add {T : Type} (q : Queue T) (a b : Nat) :
    Queue.advanceN q (a + b) = Queue.advanceN (Queue.advanceN q a) b := by
  induction b with
  | zero => rfl
  | succ n ih => rw [Nat.add_succ]; simp only [Queue.advanceN, ih]

theorem next_item_snd_all {T : Type} (q : Queue T) (hne : q.items ≠ [])
    (hmode : q.repeat_mode = RepeatMode.All) :
    ∃ i, i < q.items.length ∧
      q.next_item = (q.items[i]?, ⟨q.items, i, RepeatMode.All, true⟩) := by
  have hlen : 0 < q.items.length := List.length_pos.mpr hne
  refine ⟨(if q.repeat_mode ≠ RepeatMode.Single ∧ q.has_advanced = true ∧
      q.index < q.items.length then q.index + 1 else q.index) % q.items.length,
    Nat.mod_lt _ hlen, ?_⟩
  cases q with
  | mk items index mode adv =>
    simp only at hmode
    subst hmode
    simp only [Queue.next_item, List.isEmpty_iff, hne, if_neg, ite_not]
    simp [hne]

theorem next_item_all_step {T : Type} (s : Queue T) (hne : s.items ≠ [])
    (hmode : s.repeat_mode = RepeatMode.All) (hadv : s.has_advanced = true)
    (hlt : s.index < s.items.length) :
    s.next_item = (s.items[(s.index + 1) % s.items.length]?,
      ⟨s.items, (s.index + 1) % s.items.length, RepeatMode.All, true⟩) := by
  cases s with
  | mk items index mode adv =>
    simp only at hmode hadv hlt
    subst hmode; subst hadv
    simp [Queue.next_item, List.isEmpty_iff, hne, hlt]

theorem advanceN_all {T : Type} (q : Queue T) (hne : q.items ≠ [])
    (hmode : q.repeat_mode = RepeatMode.All) (j : Nat) :
    Queue.advanceN q (j + 1) =
      ⟨q.items, ((q.next_item).2.index + j) % q.items.length, RepeatMode.All, true⟩ := by
  obtain ⟨i, hi, hstep⟩ := next_item_snd_all q hne hmode
  induction j with
  | zero =>
    show (q.next_item).2 = _
    rw [hstep]
    simp [Nat.mod_eq_of_lt hi]
  | succ n ih =>
    have hlen : 0 < q.items.length := List.length_pos.mpr hne
    show (Queue.next_item (Queue.advanceN q (n + 1))).2 = _
    rw [ih]
    rw [next_item_all_step
      ⟨q.items, ((q.next_item).2.index + n) % q.items.length, RepeatMode.All, true⟩
      hne rfl rfl (Nat.mod_lt _ hlen)]
    simp only
    congr 1
    conv_rhs => rw [← Nat.add_assoc, Nat.add_mod]
    conv_lhs => rw [Nat.add_mod]
    simp [Nat.mod_mod_of_dvd]

theorem nthOutput_all {T : Type} (q : Queue T) (hne : q.items ≠ [])
    (hmode : q.repeat_mode = RepeatMode.All) (k : Nat) :
    q.nthOutput k = q.items[((q.next_item).2.index + k) % q.items.length]? := by
  obtain ⟨i, hi, hstep⟩ := next_item_snd_all q hne hmode
  have hlen : 0 < q.items.length := List.length_pos.mpr hne
  cases k with
  | zero =>
    show (q.next_item).1 = _
    rw [hstep]
    simp [Nat.mod_eq_of_lt hi]
  | succ n =>
    show (Queue.next_item (Queue.advanceN q (n + 1))).1 = _
    rw [advanceN_all q hne hmode n]
    rw [next_item_all_step
      ⟨q.items, ((q.next_item).2.index + n) % q.items.length, RepeatMode.All, true⟩
      hne rfl rfl (Nat.mod_lt _ hlen)]
    simp only
    congr 1
    conv_rhs => rw [show (q.next_item).2.index + (n + 1) = (q.next_item).2.index + n + 1 from rfl, Nat.add_mod]
    conv_lhs => rw [Nat.add_mod]
    simp [Nat.mod_mod_of_dvd]

/-- C2: for every non-empty queue under repeat mode `All`, the stream of
items produced by successive `next_item` calls is periodic with period
`len`: the `(k + len + 1)`-st call returns the same item as the
`(k + 1)`-st call, for every starting state (wraparound law). -/
theorem queue_all_wraparound {T : Type} (q : Queue T) (hne : q.items ≠ [])
    (hmode : q.repeat_mode = RepeatMode.All) (k : Nat) :
    q.nthOutput (k + q.items.length) = q.nthOutput k := by
  rw [nthOutput_all q hne hmode, nthOutput_all q hne hmode]
  congr 1
  rw [← Nat.add_assoc, Nat.add_mod_right]

/-- Witness for C2 at the concrete queue `[0, 1]` in mode `All`. -/
theorem queue_all_wraparound_wit :
    Queue.nthOutput (⟨[0, 1], 0, RepeatMode.All, false⟩ : Queue Nat) (0 + 2) =
      Queue.nthOutput (⟨[0, 1], 0, RepeatMode.All, false⟩ : Queue Nat) 0 :=
  queue_all_wraparound (⟨[0, 1], 0, RepeatMode.All, false⟩ : Queue Nat) (by decide) rfl 0

theorem next_item_fresh_off {T : Type} (items : List T) (hne : items ≠ []) :
    Queue.next_item (⟨items, 0, RepeatMode.Off, false⟩ : Queue T) =
      (items[0]?, ⟨items, 0, RepeatMode.Off, true⟩) := by
  simp [Queue.next_item, List.isEmpty_iff, hne]

theorem next_item_off_step {T : Type} (s : Queue T) (hne : s.items ≠ [])
    (hmode : s.repeat_mode = RepeatMode.Off) (hadv : s.has_advanced = true) :
    s.next_item = (s.items[if s.index < s.items.length then s.index + 1 else s.index]?,
      ⟨s.items, if s.index < s.items.length then s.index + 1 else s.index,
        RepeatMode.Off, true⟩) := by
  cases s with
  | mk items index mode adv =>
    simp only at hmode hadv
    subst hmode; subst hadv
    simp [Queue.next_item, List.isEmpty_iff, hne]

theorem advanceN_off_fresh {T : Type} (items : List T) (hne : items ≠ []) (j : Nat) :
    Queue.advanceN (⟨items, 0, RepeatMode.Off, false⟩ : Queue T) (j + 1) =
      ⟨items, min j items.length, RepeatMode.Off, true⟩ := by
  induction j with
  | zero =>
    show (Queue.next_item (⟨items, 0, RepeatMode.Off, false⟩ : Queue T)).2 = _
    rw [next_item_fresh_off items hne]
    simp
  | succ n ih =>
    show (Queue.next_item (Queue.advanceN _ (n + 1))).2 = _
    rw [ih, next_item_off_step ⟨items, min n items.length, RepeatMode.Off, true⟩ hne rfl rfl]
    simp only
    congr 1
    split <;> omega

theorem nthOutput_off_fresh {T : Type} (items : List T) (hne : items ≠ []) (k : Nat) :
    Queue.nthOutput (⟨items, 0, RepeatMode.Off, false⟩ : Queue T) k =
      items[min k items.length]? := by
  cases k with
  | zero =>
    show (Queue.next_item (⟨items, 0, RepeatMode.Off, false⟩ : Queue T)).1 = _
    rw [next_item_fresh_off items hne]
    simp
  | succ n =>
    show (Queue.next_item (Queue.advanceN _ (n + 1))).1 = _
    rw [advanceN_off_fresh items hne n,
      next_item_off_step ⟨items, min n items.length, RepeatMode.Off, true⟩ hne rfl rfl]
    simp only
    congr 1
    split <;> omega

/-- C3 (amended): for a fresh queue over `items` in mode `Off`, every
call past the first `len` returns `none`; immediately after the `len`-th
call `current()` is still the last item, but after any further call the
index has been clamped to `len`, so `current()` returns `none` (it does
not keep returning the last non-`none` item). -/
theorem queue_off_exhaustion_amended {T : Type} (items : List T) (k : Nat) :
    (items.length ≤ k →
      Queue.nthOutput (⟨items, 0, RepeatMode.Off, false⟩ : Queue T) k = none) ∧
    (items.length < k →
      (Queue.advanceN (⟨items, 0, RepeatMode.Off, false⟩ : Queue T) k).current = none) ∧
    (items ≠ [] →
      (Queue.advanceN (⟨items, 0, RepeatMode.Off, false⟩ : Queue T) items.length).current =
        items[items.length - 1]?) := by
  by_cases hne : items = []
  · subst hne
    refine ⟨fun _ => ?_, fun _ => ?_, by simp⟩
    · show (Queue.next_item _).1 = none
      rw [advanceN_empty _ rfl]
      rfl
    · rw [advanceN_empty _ rfl]
      rfl
  · refine ⟨fun hk => ?_, fun hk => ?_, fun _ => ?_⟩
    · rw [nthOutput_off_fresh items hne]
      have hm : min k items.length = items.length := by omega
      rw [hm]
      exact List.getElem?_eq_none le_rfl
    · cases k with
      | zero => omega
      | succ n =>
        rw [advanceN_off_fresh items hne n]
        show items[min n items.length]? = none
        have hm : min n items.length = items.length := by omega
        rw [hm]
        exact List.getElem?_eq_none le_rfl
    · have hlen : 0 < items.length := List.length_pos.mpr hne
      obtain ⟨m, hm⟩ : ∃ m, items.length = m + 1 := ⟨items.length - 1, by omega⟩
      rw [hm, advanceN_off_fresh items hne m]
      show items[min m items.length]? = items[m + 1 - 1]?
      congr 1
      omega

/-- C3 witness: the amended statement evaluated on the queue `[5]`. -/
theorem queue_off_exhaustion_amended_wit :
    Queue.nthOutput (⟨[5], 0, RepeatMode.Off, false⟩ : Queue Nat) 1 = none ∧
    (Queue.advanceN (⟨[5], 0, RepeatMode.Off, false⟩ : Queue Nat) 2).current = none ∧
    (Queue.advanceN (⟨[5], 0, RepeatMode.Off, false⟩ : Queue Nat) 1).current = [5][0]? :=
  ⟨(queue_off_exhaustion_amended [5] 1).1 (by decide),
   (queue_off_exhaustion_amended [5] 2).2.1 (by decide),
   (queue_off_exhaustion_amended [5] 1).2.2 (by decide)⟩

/-- C3 counterexample: on queue `[5]` under `Off`, after the single item
has been produced and one further `next_item` call has returned `none`,
`current()` is `none`, not the last non-`none` item `some 5` as the
claim states. -/
theorem queue_off_current_cex :
    Queue.nthOutput (⟨[5], 0, RepeatMode.Off, false⟩ : Queue Nat) 0 = some 5 ∧
    Queue.nthOutput (⟨[5], 0, RepeatMode.Off, false⟩ : Queue Nat) 1 = none ∧
    (Queue.advanceN (⟨[5], 0, RepeatMode.Off, false⟩ : Queue Nat) 2).current = none ∧
    (Queue.advanceN (⟨[5], 0, RepeatMode.Off, false⟩ : Queue Nat) 2).current ≠ some 5 := by
  decide

/-- C1 (amended): `jump(n)` fails with `OutOfBounds::High` exactly when
`n > len`; for `n ≤ len` it succeeds, and the immediately following
`next_item` returns the item at position `n` whenever `n < len`,
regardless of repeat mode and history.  When `n = len`, the following
`next_item` returns `none` if the queue is empty or the repeat mode is
`Off`, but under `All`/`Single` the index is reduced modulo `len` and
the item at position 0 is returned instead of `none`. -/
theorem queue_jump_spec_amended {T : Type} (q : Queue T) (n : Nat) :
    (q.items.length < n →
      q.jump n = Except.error (OutOfBoundsError.High n q.items.length)) ∧
    (n ≤ q.items.length →
      q.jump n = Except.ok { q with has_advanced := false, index := n } ∧
      (n < q.items.length →
        (Queue.next_item { q with has_advanced := false, index := n }).1 = q.items[n]?) ∧
      (n = q.items.length →
        ((q.items = [] ∨ q.repeat_mode = RepeatMode.Off) →
          (Queue.next_item { q with has_advanced := false, index := n }).1 = none) ∧
        (q.items ≠ [] → q.repeat_mode ≠ RepeatMode.Off →
          (Queue.next_item { q with has_advanced := false, index := n }).1 = q.items[0]?))) := by
  refine ⟨fun h => ?_, fun h => ⟨?_, fun hlt => ?_, fun heq => ⟨?_, ?_⟩⟩⟩
  · simp [Queue.jump, h]
  · simp [Queue.jump, Nat.not_lt.mpr h]
  · have hne : q.items ≠ [] := by
      intro h0
      rw [h0] at hlt
      simp at hlt
    simp [Queue.next_item, List.isEmpty_iff, hne, Nat.mod_eq_of_lt hlt]
  · rintro (h0 | hOff)
    · simp [Queue.next_item, h0]
    · by_cases hne : q.items = []
      · simp [Queue.next_item, hne]
      · simp [Queue.next_item, List.isEmpty_iff, hne, hOff, heq]
  · intro hne hOff
    simp [Queue.next_item, List.isEmpty_iff, hne, hOff, heq, Nat.mod_self]

/-- C1 witness: jumping to index 1 in `[7, 8]` and advancing yields the
item at position 1. -/
theorem queue_jump_spec_amended_wit :
    (Queue.next_item
      ({ items := [7, 8], index := 1, repeat_mode := RepeatMode.Off,
         has_advanced := false } : Queue Nat)).1 = [7, 8][1]? :=
  ((queue_jump_spec_amended (⟨[7, 8], 0, RepeatMode.Off, false⟩ : Queue Nat) 1).2
    (by decide)).2.1 (by decide)

/-- C1 counterexample: on the one-item queue `[0]` in mode `All`,
`jump(1)` (that is, `jump(len)`) succeeds and the immediately following
`next_item` returns `some 0` — the index wraps to 0 — rather than `none`
as the claim requires for `n = len`. -/
theorem queue_jump_claim_cex :
    Queue.jump (⟨[0], 0, RepeatMode.All, true⟩ : Queue Nat) 1 =
      Except.ok (⟨[0], 1, RepeatMode.All, false⟩ : Queue Nat) ∧
    (Queue.next_item (⟨[0], 1, RepeatMode.All, false⟩ : Queue Nat)).1 = some 0 ∧
    (Queue.next_item (⟨[0], 1, RepeatMode.All, false⟩ : Queue Nat)).1 ≠ none :=
  ⟨rfl, by decide, by decide⟩

/-- C4 (amended): on a non-empty queue, `skip(n)` jumps to the index
`index + n` — bumped by one more when `has_advanced` is set, to account
for the increment the next `next_item` call would otherwise have
performed — reduced modulo `len` under `All`/`Single` and clamped to
`len` under `Off`; the following `next_item` returns the item at that
target index.  In particular, after an ordinary `next_item` (when
`has_advanced` is true), `skip(n)` followed by `next_item` returns the
item `n + 1` positions ahead of the current one, not `n` positions. -/
theorem queue_skip_spec_amended {T : Type} (q : Queue T) (n : Nat) (hne : q.items ≠ []) :
    q.skip n = some { q with has_advanced := false, index :=
      (if q.repeat_mode = RepeatMode.Off
        then min (q.index + (if q.has_advanced then n + 1 else n)) q.items.length
        else (q.index + (if q.has_advanced then n + 1 else n)) % q.items.length) } ∧
    (Queue.next_item { q with has_advanced := false, index :=
      (if q.repeat_mode = RepeatMode.Off
        then min (q.index + (if q.has_advanced then n + 1 else n)) q.items.length
        else (q.index + (if q.has_advanced then n + 1 else n)) % q.items.length) }).1 =
      q.items[(if q.repeat_mode = RepeatMode.Off
        then min (q.index + (if q.has_advanced then n + 1 else n)) q.items.length
        else (q.index + (if q.has_advanced then n + 1 else n)) % q.items.length)]? := by
  have hlen : 0 < q.items.length := List.length_pos.mpr hne
  by_cases hOff : q.repeat_mode = RepeatMode.Off
  · have hle : min (q.index + (if q.has_advanced then n + 1 else n)) q.items.length ≤
        q.items.length := Nat.min_le_right _ _
    constructor
    · simp [Queue.skip, Queue.jump, List.isEmpty_iff, hne, hOff, Except.toOption,
        Nat.not_lt.mpr hle]
    · simp [Queue.next_item, List.isEmpty_iff, hne, hOff]
  · have hlt : (q.index + (if q.has_advanced then n + 1 else n)) % q.items.length <
        q.items.length := Nat.mod_lt _ hlen
    constructor
    · simp [Queue.skip, Queue.jump, List.isEmpty_iff, hne, hOff, Except.toOption,
        Nat.not_lt.mpr (Nat.le_of_lt hlt)]
    · simp [Queue.next_item, List.isEmpty_iff, hne, hOff, Nat.mod_eq_of_lt hlt]

/-- C4 witness: the amended statement evaluated on the two-item queue
`[0, 1]` in mode `All` with item 1 current (`has_advanced` set):
`skip(1)` targets index `(1 + 2) % 2 = 1`. -/
theorem queue_skip_spec_amended_wit :
    Queue.skip (⟨[0, 1], 1, RepeatMode.All, true⟩ : Queue Nat) 1 =
      some (⟨[0, 1], 1, RepeatMode.All, false⟩ : Queue Nat) :=
  (queue_skip_spec_amended (⟨[0, 1], 1, RepeatMode.All, true⟩ : Queue Nat) 1
    (by decide)).1

/-- C4 counterexample: queue `[A, B]` (`A = 0`, `B = 1`) under `All`.
Two `next_item` calls produce `A` then `B`; from there `skip(1)`
followed by `next_item` returns `B` again — not `A`, the item one
position ahead of the current one, as the claim and the spec's scenario
state. -/
theorem queue_skip_claim_cex :
    Queue.nthOutput (⟨[0, 1], 0, RepeatMode.All, false⟩ : Queue Nat) 0 = some 0 ∧
    Queue.nthOutput (⟨[0, 1], 0, RepeatMode.All, false⟩ : Queue Nat) 1 = some 1 ∧
    (Queue.skip (Queue.advanceN (⟨[0, 1], 0, RepeatMode.All, false⟩ : Queue Nat) 2) 1).map
      (fun q2 => (Queue.next_item q2).1) = some (some 1) ∧
    (Queue.skip (Queue.advanceN (⟨[0, 1], 0, RepeatMode.All, false⟩ : Queue Nat) 2) 1).map
      (fun q2 => (Queue.next_item q2).1) ≠ some (some 0) := by
  decide

/-- C10: on a non-empty queue satisfying the index invariant
`index ≤ len`, `rewind n` panics exactly when `n > index + len`: there
the `usize` computation `len - (n - index)` underflows (wrapping in
release builds to a value the internal `jump`'s `expect` rejects), so
the call never wraps backward around the list more than once. -/
theorem queue_rewind_panic_spec {T : Type} (q : Queue T) (n : Nat) (hne : q.items ≠ [])
    (hidx : q.index ≤ q.items.length) :
    q.rewind n = none ↔ q.index + q.items.length < n := by
  simp only [Queue.rewind, Queue.jump, List.isEmpty_iff, hne, if_false]
  split
  · rename_i hle
    have : ¬ q.items.length < q.index - n := by omega
    simp [this, Except.toOption]
    omega
  · split
    · rename_i hgt hund
      simp
      omega
    · rename_i hgt hund
      have : ¬ q.items.length < q.items.length - (n - q.index) := by omega
      simp [this, Except.toOption]
      omega

/-- C10 witness: on the queue `[1, 2, 3]` at index 1, `rewind 5`
(with `5 > 1 + 3`) panics. -/
theorem queue_rewind_panic_spec_wit :
    Queue.rewind (⟨[1, 2, 3], 1, RepeatMode.Off, true⟩ : Queue Nat) 5 = none ↔ 4 < 5 :=
  queue_rewind_panic_spec (⟨[1, 2, 3], 1, RepeatMode.Off, true⟩ : Queue Nat) 5
    (by decide) (by decide)

/-- C9 (amended): `remove(i)` decrements the queue index exactly when
`i` is strictly below it (not "at or before" it: removing at the current
index leaves the index in place so that `current()` moves to the
successor), and `insert(i, x)` increments the index exactly when `i` is
at or below it.  Consequently `current()` refers to the same element as
before the mutation whenever `i ≠ index` for `remove` (to the successor
when `i = index`) and for every in-bounds `i` for `insert`. -/
theorem queue_remove_insert_amended {T : Type} (q : Queue T) (i : Nat) (x : T) :
    ((q.remove i).index = if i < q.index then q.index - 1 else q.index) ∧
    ((q.insert i x).index = if i ≤ q.index then q.index + 1 else q.index) ∧
    (i < q.items.length →
      (i < q.index → (q.remove i).current = q.current) ∧
      (q.index < i → (q.remove i).current = q.current) ∧
      (i = q.index → (q.remove i).current = q.items[q.index + 1]?)) ∧
    (i ≤ q.items.length →
      (i ≤ q.index → (q.insert i x).current = q.current) ∧
      (q.index < i → (q.insert i x).current = q.current)) := by
  refine ⟨rfl, rfl, fun hilen => ⟨fun hlt => ?_, fun hgt => ?_, fun heq => ?_⟩,
    fun hilen => ⟨fun hle => ?_, fun hgt => ?_⟩⟩
  · have hti : (q.items.take i).length = i := List.length_take_of_le (by omega)
    show (q.items.take i ++ q.items.drop (i + 1))[if i < q.index then q.index - 1
      else q.index]? = q.items[q.index]?
    rw [if_pos hlt, List.getElem?_append_right (by rw [hti]; omega), hti,
      List.getElem?_drop]
    congr 1
    omega
  · have hti : (q.items.take i).length = i := List.length_take_of_le (by omega)
    show (q.items.take i ++ q.items.drop (i + 1))[if i < q.index then q.index - 1
      else q.index]? = q.items[q.index]?
    rw [if_neg (by omega), List.getElem?_append, hti, if_pos (by omega),
      List.getElem?_take, if_pos (by omega)]
  · have hti : (q.items.take i).length = i := List.length_take_of_le (by omega)
    show (q.items.take i ++ q.items.drop (i + 1))[if i < q.index then q.index - 1
      else q.index]? = q.items[q.index + 1]?
    rw [if_neg (by omega), List.getElem?_append_right (by rw [hti]; omega), hti,
      List.getElem?_drop]
    congr 1
    omega
  · have hti : (q.items.take i).length = i := List.length_take_of_le hilen
    show (q.items.take i ++ x :: q.items.drop i)[if i ≤ q.index then q.index + 1
      else q.index]? = q.items[q.index]?
    rw [if_pos hle, List.getElem?_append_right (by rw [hti]; omega), hti]
    have harith : q.index + 1 - i = (q.index - i) + 1 := by omega
    rw [harith, List.getElem?_cons_succ, List.getElem?_drop]
    congr 1
    omega
  · have hti : (q.items.take i).length = i := List.length_take_of_le hilen
    show (q.items.take i ++ x :: q.items.drop i)[if i ≤ q.index then q.index + 1
      else q.index]? = q.items[q.index]?
    rw [if_neg (by omega), List.getElem?_append, hti, if_pos (by omega),
      List.getElem?_take, if_pos (by omega)]

/-- C9 witness: on `[10, 20, 30]` with index 2, removing position 0
decrements the index and inserting at position 0 increments it, keeping
`current()` on the same element (30). -/
theorem queue_remove_insert_amended_wit :
    (Queue.remove (⟨[10, 20, 30], 2, RepeatMode.Off, true⟩ : Queue Nat) 0).current =
      (⟨[10, 20, 30], 2, RepeatMode.Off, true⟩ : Queue Nat).current ∧
    (Queue.insert (⟨[10, 20, 30], 2, RepeatMode.Off, true⟩ : Queue Nat) 0 7).current =
      (⟨[10, 20, 30], 2, RepeatMode.Off, true⟩ : Queue Nat).current :=
  ⟨((queue_remove_insert_amended (⟨[10, 20, 30], 2, RepeatMode.Off, true⟩ : Queue Nat)
      0 7).2.2.1 (by decide)).1 (by decide),
   ((queue_remove_insert_amended (⟨[10, 20, 30], 2, RepeatMode.Off, true⟩ : Queue Nat)
      0 7).2.2.2 (by decide)).1 (by decide)⟩

/-- C9 counterexample: on `[10, 20, 30]` with current index 1, `remove(1)`
(the mutated position is at — not before — the current index) leaves the
index at 1 instead of adjusting it by −1 as the claim states; `current()`
then refers to the successor 30. -/
theorem queue_remove_claim_cex :
    (Queue.remove (⟨[10, 20, 30], 1, RepeatMode.Off, true⟩ : Queue Nat) 1).index = 1 ∧
    (Queue.remove (⟨[10, 20, 30], 1, RepeatMode.Off, true⟩ : Queue Nat) 1).index ≠ 1 - 1 ∧
    (Queue.remove (⟨[10, 20, 30], 1, RepeatMode.Off, true⟩ : Queue Nat) 1).current = some 30 := by
  decide

/-- C5: `Player::run` fails with `Running` exactly when the state is
already `Playing` or `Paused` (in particular on a second `run()` with no
intervening stop/quit), otherwise fails with `EmptyQueue` exactly when
the queue is empty, and otherwise succeeds, moving the state (from
`NotStarted` or `Finished`) to `Paused` and installing the control
sender. -/
theorem player_run_spec (p : Player) :
    (p.run = Except.error PlayerStartError.Running ↔
      p.state = PlayerState.Playing ∨ p.state = PlayerState.Paused) ∧
    (p.run = Except.error PlayerStartError.EmptyQueue ↔
      ¬ (p.state = PlayerState.Playing ∨ p.state = PlayerState.Paused) ∧
        p.queue.items = []) ∧
    ((p.state = PlayerState.NotStarted ∨ p.state = PlayerState.Finished) →
      p.queue.items ≠ [] →
      p.run = Except.ok { p with state := PlayerState.Paused, hasSender := true }) := by
  cases p with
  | mk queue state hasSender tp rt =>
    cases state <;> by_cases hq : queue.items = [] <;>
      simp_all [Player.run, Queue.is_empty, List.isEmpty_iff]

/-- C5 witness: a second `run()` on an already-`Paused` player fails
with `Running`; a fresh `NotStarted` player with one song starts. -/
theorem player_run_spec_wit :
    Player.run (⟨⟨[⟨0, "", 1000⟩], 0, RepeatMode.All, false⟩, PlayerState.Paused,
        true, 0, 3000⟩ : Player) = Except.error PlayerStartError.Running ∧
    Player.run (⟨⟨[⟨0, "", 1000⟩], 0, RepeatMode.All, false⟩, PlayerState.NotStarted,
        false, 0, 3000⟩ : Player) =
      Except.ok (⟨⟨[⟨0, "", 1000⟩], 0, RepeatMode.All, false⟩, PlayerState.Paused,
        true, 0, 3000⟩ : Player) :=
  ⟨(player_run_spec (⟨⟨[⟨0, "", 1000⟩], 0, RepeatMode.All, false⟩, PlayerState.Paused,
      true, 0, 3000⟩ : Player)).1.mpr (Or.inr rfl),
   (player_run_spec (⟨⟨[⟨0, "", 1000⟩], 0, RepeatMode.All, false⟩, PlayerState.NotStarted,
      false, 0, 3000⟩ : Player)).2.2 (Or.inl rfl) (by decide)⟩

/-- C6: `Player::seek_duration` fails with `NoCurrentSong` exactly when
there is no current song, fails with `OutOfRange{requested, max}`
(`max` = the current track's duration) exactly when the request exceeds
that duration, sends no control message in any failing case, and on
success sends exactly one `Seek` message (when the sender exists). -/
theorem player_seek_spec (p : Player) (d : Nat) :
    ((p.seek_duration d).1 = Except.error SeekError.NoCurrentSong ↔ p.current = none) ∧
    (∀ song, p.current = some song →
      ((p.seek_duration d).1 =
          Except.error (SeekError.out_of_range d song.durationMillis) ↔
        song.durationMillis < d)) ∧
    (∀ e, (p.seek_duration d).1 = Except.error e → (p.seek_duration d).2 = []) ∧
    (∀ b, (p.seek_duration d).1 = Except.ok b →
      b = p.hasSender ∧
      (p.seek_duration d).2 = if p.hasSender then [PlayerMessage.Seek d] else []) := by
  cases hc : p.current with
  | none => simp [Player.seek_duration, hc]
  | some song =>
    by_cases hd : song.durationMillis < d
    · simp [Player.seek_duration, hc, hd, SeekError.out_of_range]
    · by_cases hs : p.hasSender
      · simp [Player.seek_duration, hc, hd, hs, Player.send_message,
          SeekError.out_of_range]
        omega
      · simp [Player.seek_duration, hc, hd, hs, Player.send_message,
          SeekError.out_of_range]
        omega

/-- C6 witness: seeking to 2000 ms in a 1000 ms track fails with
`OutOfRange{2000, 1000}` and sends no message. -/
theorem player_seek_spec_wit :
    ((Player.seek_duration (⟨⟨[⟨0, "", 1000⟩], 0, RepeatMode.All, false⟩,
        PlayerState.Playing, true, 0, 3000⟩ : Player) 2000).1 =
      Except.error (SeekError.out_of_range 2000 1000) ↔ 1000 < 2000) ∧
    (Player.seek_duration (⟨⟨[⟨0, "", 1000⟩], 0, RepeatMode.All, false⟩,
        PlayerState.Playing, true, 0, 3000⟩ : Player) 2000).2 = [] := by
  have h := player_seek_spec (⟨⟨[⟨0, "", 1000⟩], 0, RepeatMode.All, false⟩,
    PlayerState.Playing, true, 0, 3000⟩ : Player) 2000
  refine ⟨h.2.1 ⟨0, "", 1000⟩ rfl,
    h.2.2.1 (SeekError.out_of_range 2000 1000) ?_⟩
  exact (h.2.1 ⟨0, "", 1000⟩ rfl).mpr (by decide)

theorem rewind_one_isSome {T : Type} (q : Queue T) (hidx : q.index ≤ q.items.length) :
    (q.rewind 1).isSome = true := by
  by_cases hne : q.items = []
  · simp [Queue.rewind, Queue.jump, hne, Except.toOption]
  · have hlen : 0 < q.items.length := List.length_pos.mpr hne
    simp only [Queue.rewind, Queue.jump, List.isEmpty_iff, hne, if_false]
    split
    · rename_i h1
      rw [if_neg (by omega)]
      simp [Except.toOption]
    · rename_i h1
      rw [if_neg (by omega), if_neg (by omega)]
      simp [Except.toOption]

/-- C8: `Player::rewind` branches on the elapsed time against the
3-second threshold: when the elapsed seconds exceed the threshold and a
current song exists, it seeks to 0 (sending `Seek 0`, state otherwise
unchanged); otherwise it moves the queue back one position via
`Queue::rewind(1)` and sends a `Stop` message rather than seeking. -/
theorem player_rewind_spec (p : Player) (hs : p.hasSender = true)
    (hidx : p.queue.index ≤ p.queue.items.length) :
    ((p.timePlayingMillis : ℚ) / 1000 > (p.rewindThresholdMillis : ℚ) / 1000 ∧
        (p.current).isSome = true →
      p.rewind = some (p, [PlayerMessage.Seek 0])) ∧
    (¬ ((p.timePlayingMillis : ℚ) / 1000 > (p.rewindThresholdMillis : ℚ) / 1000 ∧
        (p.current).isSome = true) →
      p.rewind = (p.queue.rewind 1).map
        (fun q2 => ({ p with queue := q2 }, [PlayerMessage.Stop])) ∧
      (p.queue.rewind 1).isSome = true) := by
  constructor
  · rintro ⟨ht, hc⟩
    obtain ⟨song, hsong⟩ := Option.isSome_iff_exists.mp hc
    rw [Player.rewind, if_pos ⟨ht, hc⟩]
    have hseek : p.seek_duration 0 = (Except.ok true, [PlayerMessage.Seek 0]) := by
      simp [Player.seek_duration, hsong, Player.send_message, hs]
    rw [hseek]
  · intro hnot
    obtain ⟨q2, hq2⟩ := Option.isSome_iff_exists.mp (rewind_one_isSome p.queue hidx)
    rw [Player.rewind, if_neg hnot, hq2]
    simp [Player.send_message, hs, hq2]

/-- C8 witness: at 1500 ms elapsed (below the 3000 ms threshold) the
player moves the queue back one position and stops instead of seeking;
at 5000 ms elapsed with a current song it seeks to 0. -/
theorem player_rewind_spec_wit :
    Player.rewind (⟨⟨[⟨0, "", 9000⟩], 0, RepeatMode.All, false⟩, PlayerState.Playing,
        true, 1500, 3000⟩ : Player) =
      (Queue.rewind (⟨[⟨0, "", 9000⟩], 0, RepeatMode.All, false⟩ : Queue Song) 1).map
        (fun q2 => ((⟨q2, PlayerState.Playing, true, 1500, 3000⟩ : Player),
          [PlayerMessage.Stop])) ∧
    Player.rewind (⟨⟨[⟨0, "", 9000⟩], 0, RepeatMode.All, true⟩, PlayerState.Playing,
        true, 5000, 3000⟩ : Player) =
      some ((⟨⟨[⟨0, "", 9000⟩], 0, RepeatMode.All, true⟩, PlayerState.Playing,
        true, 5000, 3000⟩ : Player), [PlayerMessage.Seek 0]) :=
  ⟨((player_rewind_spec (⟨⟨[⟨0, "", 9000⟩], 0, RepeatMode.All, false⟩,
      PlayerState.Playing, true, 1500, 3000⟩ : Player) rfl (by decide)).2
      (by norm_num)).1,
   (player_rewind_spec (⟨⟨[⟨0, "", 9000⟩], 0, RepeatMode.All, true⟩,
      PlayerState.Playing, true, 5000, 3000⟩ : Player) rfl (by decide)).1
      ⟨by norm_num, by decide⟩⟩

/-- C7: `AtomicVolume::from_percent` first clamps its argument to
`[0, 1]`; at exactly 0 or 1 the stored multiplier equals the percentage
itself; for `p` strictly between 0 and 1 the multiplier is
`10^((-60 + 60p)/20)` — in particular `from_percent(1/2)` yields
`10^(-3/2)` — and `from_percent_checked` returns a range error for
arguments outside `[0, 1]` instead of clamping.  (Real-valued model of
the `f64` computation.) -/
theorem volume_from_percent_spec (p : ℚ) (h0 : 0 < p) (h1 : p < 1) :
    (∀ r : ℚ, AtomicVolume.from_percent r =
      AtomicVolume.from_percent (max 0 (min r 1))) ∧
    (AtomicVolume.from_percent 0).multiplier = 0 ∧
    (AtomicVolume.from_percent 1).multiplier = 1 ∧
    (AtomicVolume.from_percent p).multiplier =
      (10 : ℝ) ^ (((((-60 : ℚ) + 60 * p) : ℚ) : ℝ) / 20) ∧
    (AtomicVolume.from_percent (1/2)).multiplier = (10 : ℝ) ^ (-(3/2) : ℝ) ∧
    (∀ r : ℚ, ¬ (0 ≤ r ∧ r ≤ 1) →
      AtomicVolume.from_percent_checked r =
        Except.error (OutOfBoundsError.Range r 0 1)) := by
  have hclamp : ∀ r : ℚ, max 0 (min (max 0 (min r 1)) 1) = max 0 (min r 1) := by
    intro r
    rcases le_total r 0 with h | h <;> rcases le_total r 1 with h2 | h2 <;>
      simp [min_def, max_def] <;> split_ifs <;> rfl
  refine ⟨fun r => ?_, ?_, ?_, ?_, ?_, fun r hr => ?_⟩
  · simp only [AtomicVolume.from_percent]
    rw [hclamp r]
  · have : max 0 (min (0 : ℚ) 1) = 0 := by norm_num
    simp [AtomicVolume.from_percent, this]
  · have : max 0 (min (1 : ℚ) 1) = 1 := by norm_num
    simp [AtomicVolume.from_percent, this]
  · have hcl : max 0 (min p 1) = p := by
      rw [min_eq_left (le_of_lt h1), max_eq_right (le_of_lt h0)]
    have hne : ¬ (p = 0 ∨ p = 1) := by
      rintro (h | h) <;> [exact absurd h (ne_of_gt h0); exact absurd h (ne_of_lt h1)]
    simp only [AtomicVolume.from_percent, hcl, hne, if_false]
    congr 1
    push_cast
    ring
  · have hcl : max 0 (min (1/2 : ℚ) 1) = 1/2 := by norm_num
    have hne : ¬ ((1/2 : ℚ) = 0 ∨ (1/2 : ℚ) = 1) := by norm_num
    simp only [AtomicVolume.from_percent, hcl, hne, if_false]
    congr 1
    push_cast
    norm_num
  · simp [AtomicVolume.from_percent_checked, hr]

/-- C7 witness: the interesting interior point `p = 1/2`. -/
theorem volume_from_percent_spec_wit :
    (0 : ℚ) < 1/2 ∧
    (AtomicVolume.from_percent (1/2)).multiplier = (10 : ℝ) ^ (-(3/2) : ℝ) :=
  ⟨one_half_pos,
   (volume_from_percent_spec (1/2) one_half_pos one_half_lt_one).2.2.2.2.1⟩

end Amuseing
